import Mathlib

/-!
Verification development for the Austin estate-sales scraper
(`scrape_sales.py`).  The Python source is shallowly embedded: pure string
and list manipulations are translated into executable Lean functions; the
results of external library calls (the HTML parser's queries and the
`re` searches used for address and long-form date extraction) are taken as
inputs, while the day-number scan `\b(\d{1,2})\b` used by the bucketer is
implemented concretely.  Machine integers do not occur (Python ints are
unbounded); calendar arithmetic is modelled with a Gregorian date type.
-/

set_option maxHeartbeats 1600000
set_option maxRecDepth 8192

namespace EstateSales

/-! ### Python-style character and string utilities -/

/-- Python `\s` / `str.strip()` whitespace characters (ASCII range). -/
def isPySpace (c : Char) : Bool :=
  c == ' ' || c == '\t' || c == '\n' || c == '\r' || c == '\x0b' || c == '\x0c'

/-- Python `re.sub(r'\s+', ' ', text)`: every maximal whitespace run becomes one space. -/
def collapseWs : List Char → List Char
  | [] => []
  | [c] => if isPySpace c then [' '] else [c]
  | c :: d :: cs =>
    if isPySpace c && isPySpace d then collapseWs (d :: cs)
    else (if isPySpace c then ' ' else c) :: collapseWs (d :: cs)

/-- Python `str.strip()` on a character list. -/
def pyStripChars (l : List Char) : List Char :=
  ((l.dropWhile isPySpace).reverse.dropWhile isPySpace).reverse

/-- Python `str.strip()`. -/
def pyStrip (s : String) : String := ⟨pyStripChars s.data⟩

/-- If `pat` is an initial segment of `l`, return the remainder of `l`. -/
def stripPat : List Char → List Char → Option (List Char)
  | [], l => some l
  | _ :: _, [] => none
  | p :: ps, c :: cs => if p == c then stripPat ps cs else none

/-- Python `str.startswith`. -/
def strStarts (s pat : String) : Bool := (stripPat pat.data s.data).isSome

/-- Python `str.lower()` (ASCII case folding). -/
def strLower (s : String) : String := ⟨s.data.map Char.toLower⟩

/-- Fuelled core of Python `str.replace(pat, rep)` (left-to-right,
non-overlapping, replacements not rescanned).  The pattern `p :: ps` is
non-empty; fuel one step per character suffices. -/
def replAllFuel (p : Char) (ps rep : List Char) : Nat → List Char → List Char
  | 0, l => l
  | fuel + 1, l =>
    match l with
    | [] => []
    | c :: cs =>
      match stripPat (p :: ps) (c :: cs) with
      | some rest => rep ++ replAllFuel p ps rep fuel rest
      | none => c :: replAllFuel p ps rep fuel cs

/-- Python `str.replace(pat, rep)` with non-empty pattern `p :: ps`. -/
def replAll (p : Char) (ps rep l : List Char) : List Char :=
  replAllFuel p ps rep l.length l

/-- Steps of `clean_text` from `scrape_sales.py`: collapse whitespace, strip, then
decode the four HTML entities in source order. -/
def cleanChars (l : List Char) : List Char :=
  replAll '&' "gt;".data ['>']
    (replAll '&' "lt;".data ['<']
      (replAll '&' "quot;".data ['"']
        (replAll '&' "amp;".data ['&']
          (pyStripChars (collapseWs l)))))

/-- Model of `clean_text` from `scrape_sales.py`. -/
def clean_text (s : String) : String := ⟨cleanChars s.data⟩

/-- Decimal digits of a natural number (fuelled, most significant first). -/
def natDigitsAux : Nat → Nat → List Char
  | 0, _ => []
  | _ + 1, 0 => []
  | f + 1, n => natDigitsAux f (n / 10) ++ [Char.ofNat (48 + n % 10)]

/-- Decimal rendering of a natural number, as in Python `f"{i}"`. -/
def natStr (n : Nat) : String :=
  if n == 0 then ("0") else ⟨natDigitsAux (n + 1) n⟩

/-- Numeric value of a digit string, as in Python `int(x)`. -/
def numVal (l : List Char) : Nat :=
  l.foldl (fun acc c => 10 * acc + (c.toNat - 48)) 0

/-! ### The day-number scanner of the bucketer

`re.findall(r'\b(\d{1,2})\b', text)`: at each position, require a word
boundary, match one or two digits greedily (with backtracking), require a
word boundary after the match, and continue scanning after the match. -/

/-- Python `re` word character for ASCII text: `[a-zA-Z0-9_]`. -/
def isWordChar (c : Char) : Bool := c.isAlphanum || c == '_'

def isWordOpt : Option Char → Bool
  | none => false
  | some c => isWordChar c

/-- A word boundary lies between two (optional) adjacent characters iff
exactly one of them is a word character. -/
def boundary (a b : Option Char) : Bool := isWordOpt a != isWordOpt b

/-- All matches of `\b(\d{1,2})\b`, scanning with the previous character in
`prev`.  Greedy two-digit attempt first, then one digit, else advance. -/
def findNums : Option Char → List Char → List (List Char)
  | _, [] => []
  | prev, c :: rest =>
    if boundary prev (some c) && c.isDigit then
      match rest with
      | [] => if boundary (some c) none then [[c]] else []
      | d :: rest2 =>
        if d.isDigit && boundary (some d) rest2.head? then
          [c, d] :: findNums (some d) rest2
        else if boundary (some c) (some d) then
          [c] :: findNums (some c) (d :: rest2)
        else
          findNums (some c) (d :: rest2)
    else
      findNums (some c) rest

/-- Day numbers extracted from a `dates` string by
`organize_sales_by_weekend_fixed`: standalone one/two-digit numbers of the
lowercased string, kept when in `[1, 31]`. -/
def extractDayNumbers (dates : String) : List Nat :=
  (((findNums none (strLower dates).data).map numVal).filter
    (fun n => decide (1 ≤ n) && decide (n ≤ 31)))

/-! ### Calendar model (Python `datetime` + `timedelta(days=n)`) -/

structure Date where
  year : Nat
  month : Nat
  day : Nat
deriving DecidableEq, Repr

def isLeapYear (y : Nat) : Bool :=
  (y % 4 == 0 && y % 100 != 0) || y % 400 == 0

def daysInMonth (y m : Nat) : Nat :=
  if m == 2 then (if isLeapYear y then 29 else 28)
  else if m == 4 || m == 6 || m == 9 || m == 11 then 30
  else 31

def nextDay (dt : Date) : Date :=
  if dt.day < daysInMonth dt.year dt.month then ⟨dt.year, dt.month, dt.day + 1⟩
  else if dt.month < 12 then ⟨dt.year, dt.month + 1, 1⟩
  else ⟨dt.year + 1, 1, 1⟩

/-- Python `dt + timedelta(days=n)`. -/
def addDays (dt : Date) : Nat → Date
  | 0 => dt
  | n + 1 => nextDay (addDays dt n)

/-- Julian day number; `jdn % 7 = 0` on Mondays, matching Python
`datetime.weekday()` (Monday = 0 .. Sunday = 6). -/
def jdn (dt : Date) : Nat :=
  let a := (14 - dt.month) / 12
  let y := dt.year + 4800 - a
  let m := dt.month + 12 * a - 3
  dt.day + (153 * m + 2) / 5 + 365 * y + y / 4 - y / 100 + y / 400 - 32045

/-- Python `datetime.weekday()`: Monday = 0 .. Sunday = 6. -/
def weekdayIdx (dt : Date) : Nat := jdn dt % 7

/-! ### Bucketer (`organize_sales_by_weekend_fixed`) -/

structure Sale where
  title : String
  address : String
  dates : String
  link : String
deriving DecidableEq, Repr

/-- Days until Thursday (weekday 3), exactly as computed in
`organize_sales_by_weekend_fixed`. -/
def daysToThursday (w : Nat) : Nat :=
  if w ≤ 3 then 3 - w else 7 - w + 3

def thisThursday (now : Date) : Date :=
  addDays now (daysToThursday (weekdayIdx now))

/-- Thursday-through-Sunday day-of-month list starting at `start`. -/
def weekendDayNums (start : Date) : List Nat :=
  [(addDays start 0).day, (addDays start 1).day,
   (addDays start 2).day, (addDays start 3).day]

def thisWeekendDays (now : Date) : List Nat :=
  weekendDayNums (thisThursday now)

def nextWeekendDays (now : Date) : List Nat :=
  weekendDayNums (addDays (thisThursday now) 7)

inductive Bucket where
  | thisWeekend
  | nextWeekend
  | other
deriving DecidableEq, Repr

/-- The per-sale bucket decision of `organize_sales_by_weekend_fixed`. -/
def classifySale (twDays nwDays : List Nat) (s : Sale) : Bucket :=
  let dayNumbers := extractDayNumbers s.dates
  let isThis := dayNumbers.any (fun d => twDays.contains d)
  let isNext := dayNumbers.any (fun d => nwDays.contains d)
  if isThis && !isNext then .thisWeekend
  else if isNext && !isThis then .nextWeekend
  else .other

structure OrganizedSales where
  this_weekend : List Sale
  next_weekend : List Sale
  other : List Sale
deriving DecidableEq, Repr

/-- One pass over the sales, appending each to its bucket in order. -/
def organizeSalesList (twDays nwDays : List Nat) : List Sale → OrganizedSales
  | [] => ⟨[], [], []⟩
  | s :: rest =>
    let r := organizeSalesList twDays nwDays rest
    match classifySale twDays nwDays s with
    | .thisWeekend => ⟨s :: r.this_weekend, r.next_weekend, r.other⟩
    | .nextWeekend => ⟨r.this_weekend, s :: r.next_weekend, r.other⟩
    | .other => ⟨r.this_weekend, r.next_weekend, s :: r.other⟩

/-- Model of `organize_sales_by_weekend_fixed`, with the current Central-time date
passed explicitly. -/
def organize_sales_by_weekend_fixed (now : Date) (sales : List Sale) :
    OrganizedSales :=
  organizeSalesList (thisWeekendDays now) (nextWeekendDays now) sales

/-! ### Extractor (`extract_sales_info_improved` and helpers)

The BeautifulSoup queries are modelled as inputs: a `Container` carries the
observations the per-field heuristics read from the resolved DOM container
(first heading text per `h1..h6` in order, strong/bold texts, full text
content), together with the results of the `re` library calls used for
address and long-form date extraction (`addressMatches` in pattern order,
`dateMatchLists` the four `findall` result lists). -/

/-- One `re.findall` result entry: a plain string for one-group patterns,
a tuple of group strings otherwise. -/
inductive DateMatch where
  | single (s : String)
  | groups (ss : List String)
deriving DecidableEq, Repr

structure Container where
  headings : List String
  strongTexts : List String
  text : String
  addressMatches : List String
  dateMatchLists : List (List DateMatch)
deriving DecidableEq, Repr

structure LinkInfo where
  href : String
  titleAttr : Option String
  container : Container
deriving DecidableEq, Repr

structure PageInput where
  saleLinks : List LinkInfo
  textMatches : List (String × String)
deriving DecidableEq, Repr

/-- Title strategy 1 predicate: non-empty heading text with
`5 < len < 150` not starting (lowercased) with `http`. -/
def headingOk (h : String) : Bool :=
  h != "" && decide (5 < h.length) && decide (h.length < 150) &&
  !(strStarts (strLower h) ("http"))

/-- Title strategy 2: the link's `title` attribute, stripped, if the raw
attribute is truthy and the stripped value is longer than 5. -/
def strat2Title (titleAttr : Option String) : Option String :=
  match titleAttr with
  | none => none
  | some a =>
    if a == "" then none
    else if decide (5 < (pyStrip a).length) then some (pyStrip a) else none

/-- Title strategy 3 predicate: strong/bold text with `10 < len < 100`. -/
def strongOk (t : String) : Bool :=
  decide (10 < t.length) && decide (t.length < 100)

/-- The stripped non-empty lines of the container text
(`text_content.split('\n')`). -/
def splitLinesAux (cur : List Char) : List Char → List (List Char)
  | [] => [cur.reverse]
  | c :: cs =>
    if c == '\n' then cur.reverse :: splitLinesAux [] cs
    else splitLinesAux (c :: cur) cs

def containerLines (text : String) : List String :=
  (((splitLinesAux [] text.data).map (fun l => pyStrip ⟨l⟩)).filter
    (fun l => l != ""))

/-- Title strategy 4 predicate: a plausible descriptive line. -/
def lineOk (l : String) : Bool :=
  decide (10 < l.length) && decide (l.length < 100) &&
  !(strStarts l ("http")) && !(l.data.all Char.isDigit) &&
  !(strStarts (strLower l) ("austin, tx"))

/-- The raw (pre-`clean_text`) title selected by the strategy chain of
`extract_sale_title_improved`, if any strategy fires. -/
def titleRaw (c : Container) (titleAttr : Option String) : Option String :=
  (c.headings.find? headingOk).orElse (fun _ =>
    (strat2Title titleAttr).orElse (fun _ =>
      (c.strongTexts.find? strongOk).orElse (fun _ =>
        (containerLines c.text).find? lineOk)))

/-- Model of `extract_sale_title_improved`. -/
def extract_sale_title_improved (c : Container) (titleAttr : Option String) :
    String :=
  match titleRaw c titleAttr with
  | some t => clean_text t
  | none => "Estate Sale"

/-- Model of `extract_sale_address_improved`: first `re.search` result (in pattern
order), stripped, that is longer than 8 characters; else the default. -/
def extract_sale_address_improved (c : Container) : String :=
  match (c.addressMatches.map pyStrip).find? (fun a => decide (8 < a.length)) with
  | some a => clean_text a
  | none => "Austin, TX (see website for full address)"

/-- A findall entry rendered as the date string the source builds
(tuples joined with spaces, empty groups dropped). -/
def dateStrOf : DateMatch → String
  | .single s => s
  | .groups ss =>
    match ss.filter (fun m => m != "") with
    | [] => ""
    | t :: ts => ts.foldl (fun acc u => acc ++ " " ++ u) t

/-- Collect distinct non-empty date strings in first-seen order. -/
def collectDates : List String → List DateMatch → List String
  | acc, [] => acc
  | acc, m :: ms =>
    let d := dateStrOf m
    if d != "" && !(acc.contains d) then collectDates (acc ++ [d]) ms
    else collectDates acc ms

/-- Join strings with a separator, as Python `sep.join`. -/
def strJoinSep (sep : String) : List String → String
  | [] => ""
  | s :: rest => rest.foldl (fun acc t => acc ++ sep ++ t) s

/-- Model of `extract_sale_dates_improved`: the unique pattern matches in first-seen
order, first five joined with `", "`; else the default. -/
def extract_sale_dates_improved (c : Container) : String :=
  let found := c.dateMatchLists.foldl collectDates []
  match found with
  | [] => "See website for dates"
  | _ => strJoinSep (", ") (found.take 5)

def siteBase : String := "https://www.estatesales.net"

/-- The Sale built for one processed sale link. -/
def mkSale (l : LinkInfo) : Sale :=
  { title := extract_sale_title_improved l.container l.titleAttr
    address := extract_sale_address_improved l.container
    dates := extract_sale_dates_improved l.container
    link := siteBase ++ l.href }

/-- The per-link loop of `extract_sales_info_improved`: process each link,
skipping hrefs already in `processed_urls`. -/
def processLinks : List LinkInfo → List String → List Sale
  | [], _ => []
  | l :: ls, seen =>
    if seen.contains l.href then processLinks ls seen
    else mkSale l :: processLinks ls (l.href :: seen)

/-- Model of `extract_from_html_text`: synthesize minimal Sales from the first ten
`/TX/Austin/(\d+)/(\d+)` matches of the page text. -/
def extract_from_html_text (page : PageInput) : List Sale :=
  (page.textMatches.take 10).map (fun m =>
    { title := "Estate Sale #" ++ m.2
      address := "Austin, TX (see website)"
      dates := "Check website for dates"
      link := siteBase ++ ("/TX/Austin/" ++ m.1 ++ "/" ++ m.2) })

/-- Model of `extract_sales_info_improved`: process up to 30 links deduplicated by
href, append up to 10 text-synthesized sales when fewer than 10 structured
sales were found, and return at most 25. -/
def extract_sales_info_improved (page : PageInput) : List Sale :=
  let sales := processLinks (page.saleLinks.take 30) []
  let sales2 :=
    if sales.length < 10 then sales ++ (extract_from_html_text page).take 10
    else sales
  sales2.take 25

/-! ### Formatter (`create_email_content_improved`) -/

/-- One numbered listing block of the report. -/
def formatEntry (i : Nat) (s : Sale) : String :=
  natStr i ++ ". " ++ s.title ++ "\n" ++
  "   Address: " ++ s.address ++ "\n" ++
  "   Dates: " ++ s.dates ++ "\n" ++
  "   Link: " ++ s.link ++ "\n\n"

/-- The listing blocks of one section, numbered from 1 in bucket order
(`enumerate(bucket, 1)`). -/
def sectionEntries (sales : List Sale) : List String :=
  (List.enumFrom 1 sales).map (fun p => formatEntry p.1 p.2)

def joinStrs (l : List String) : String := l.foldl (fun a b => a ++ b) ""

/-- Model of `create_email_content_improved`, with the two `strftime` renderings of
the current Central time passed as inputs. -/
def create_email_content_improved (genStamp updStamp : String)
    (org : OrganizedSales) : String :=
  let c0 := "AUSTIN ESTATE SALES - WEEKLY UPDATE\n" ++
    "===================================\n" ++
    "Generated: " ++ genStamp ++ "\n\n" ++
    "THIS WEEKEND (Thursday - Sunday)\n" ++
    "--------------------------------\n\n"
  let c1 := c0 ++
    (if org.this_weekend.isEmpty then ("No estate sales found for this weekend.\n\n")
     else joinStrs (sectionEntries org.this_weekend))
  let c2 := c1 ++ "NEXT WEEKEND (Thursday - Sunday)\n" ++
    "---------------------------------\n\n"
  let c3 := c2 ++
    (if org.next_weekend.isEmpty then ("No estate sales found for next weekend.\n\n")
     else joinStrs (sectionEntries org.next_weekend))
  let c4 := c3 ++
    (if org.other.isEmpty then ("")
     else ("OTHER UPCOMING SALES\n") ++ "--------------------\n\n" ++
       joinStrs (sectionEntries (org.other.take 15)))
  c4 ++ "\nHappy treasure hunting!\n" ++
    "- Austin Estate Sales Tracker (Last updated: " ++ updStamp ++ ")"

/-! ### Notifier (`send_email`, `send_error_email`)

The process environment is a triple of optional strings; the SMTP session
outcome is an input oracle.  `Except String` carries a potential uncaught
Python exception; both senders are total (`.ok`) because every raising
operation sits inside their `try`/`except`. -/

structure Env where
  gmailUser : Option String
  gmailAppPassword : Option String
  recipientEmail : Option String
deriving DecidableEq, Repr

/-- Python truthiness of `os.environ.get(...)`: set and non-empty. -/
def truthy : Option String → Bool
  | none => false
  | some s => s != ""

/-- Python `all([sender_email, sender_password, recipient_email])`. -/
def haveCreds (env : Env) : Bool :=
  truthy env.gmailUser && truthy env.gmailAppPassword && truthy env.recipientEmail

inductive SendResult where
  | noCreds
  | sent (content : String)
  | sendFailed (content : String) (err : String)
deriving DecidableEq, Repr

/-- Model of `send_email`: early return on missing credentials (before the `try`),
otherwise an SMTP attempt whose failure is caught and logged. -/
def send_email (env : Env) (smtp : Except String Unit) (content : String) :
    Except String SendResult :=
  if haveCreds env then
    match smtp with
    | .ok _ => .ok (.sent content)
    | .error e => .ok (.sendFailed content e)
  else .ok .noCreds

/-- The error-report body built inside `send_error_email`. -/
def errorContent (errMsg : String) : String :=
  "An error occurred while running the estate sales scraper:\n\n" ++ errMsg

/-- Model of `send_error_email`: everything, including the credential check, inside
one `try`/`except` that logs and swallows. -/
def send_error_email (env : Env) (smtp : Except String Unit)
    (errMsg : String) : Except String SendResult :=
  if haveCreds env then
    match smtp with
    | .ok _ => .ok (.sent (errorContent errMsg))
    | .error e => .ok (.sendFailed (errorContent errMsg) e)
  else .ok .noCreds

/-! ### Top-level entry point (`scrape_estate_sales`) -/

/-- All external observations of one run: HTTP fetch outcome, parsed page
observations, current Central date, `strftime` renderings, environment,
and SMTP outcome. -/
structure RunInput where
  fetch : Except String String
  page : PageInput
  now : Date
  genStamp : String
  updStamp : String
  env : Env
  smtp : Except String Unit
deriving Repr

inductive RunOutcome where
  | success (emailBody : String) (send : SendResult)
  | errorHandled (errMsg : String) (send : SendResult)
deriving DecidableEq, Repr

/-- The `try` body of `scrape_estate_sales`: fetch, extract, bucket,
format, send; a raising step short-circuits to the handler. -/
def runPipeline (inp : RunInput) : Except String RunOutcome :=
  match inp.fetch with
  | .error e => .error e
  | .ok _html =>
    let sales := extract_sales_info_improved inp.page
    let organized := organize_sales_by_weekend_fixed inp.now sales
    let content := create_email_content_improved inp.genStamp inp.updStamp organized
    match send_email inp.env inp.smtp content with
    | .error e => .error e
    | .ok r => .ok (.success content r)

def exceptCatch (x : Except ε α) (h : ε → Except ε α) : Except ε α :=
  match x with
  | .ok a => .ok a
  | .error e => h e

/-- Model of `scrape_estate_sales`: the pipeline wrapped in the top-level
`except Exception` handler that reports the error by email. -/
def scrape_estate_sales (inp : RunInput) : Except String RunOutcome :=
  exceptCatch (runPipeline inp) (fun e =>
    (send_error_email inp.env inp.smtp e).map (fun r => .errorHandled e r))

/-! ### Auxiliary definitions used by lemma statements -/

/-- The previous-character state of the scan when it reaches the suffix
after `s1`. -/
def junctionPrev (s1 : List Char) (prev : Option Char) : Option Char :=
  match s1.getLast? with
  | some c => some c
  | none => prev

/-! ### Concrete example inputs -/

/-- Monday, August 11, 2025 (Central time). -/
def dateM : Date := ⟨2025, 8, 11⟩

def emptyContainer : Container := ⟨[], [], "", [], []⟩

def saleW1 : Sale := ⟨"t", "a", "Aug 14", "l"⟩

def saleW9a : Sale := ⟨"t", "a", "Aug 15, 16", "l"⟩

def saleW9b : Sale := ⟨"t2", "a2", "sat 16 sun 15", "l2"⟩

/-- A page with one structured link and the same sale id in the page text:
the structured pass and the text fallback both emit the same link. -/
def pageEx2 : PageInput :=
  ⟨[⟨"/TX/Austin/1/2", none, emptyContainer⟩], [("1", "2")]⟩

/-- A 200-character title attribute. -/
def longAttr : String := ⟨List.replicate 200 'A'⟩

def pageEx3 : PageInput := ⟨[⟨"/TX/Austin/1/2", some longAttr, emptyContainer⟩], []⟩

def pageW3 : PageInput := ⟨[], [("7", "9")]⟩

def saleW3 : Sale :=
  ⟨"Estate Sale #9", "Austin, TX (see website)", "Check website for dates",
   "https://www.estatesales.net/TX/Austin/7/9"⟩

def pageEx6 : PageInput := ⟨[], [("1", "2")]⟩

def pageW6 : PageInput := ⟨[], [("3", "4")]⟩

def saleW6 : Sale :=
  ⟨"Estate Sale #4", "Austin, TX (see website)", "Check website for dates",
   "https://www.estatesales.net/TX/Austin/3/4"⟩

def cexSale (i : Nat) : Sale := ⟨"Sale number " ++ natStr i, "Addr", "Dts", "Lnk"⟩

/-- Sixteen distinct sales in the `other` bucket. -/
def org5cex : OrganizedSales :=
  ⟨[], [], (List.range 16).map (fun i => cexSale (i + 1))⟩

def envW7 : Env := ⟨none, some ("pw"), some ("to")⟩

def inpW8 : RunInput :=
  ⟨.error ("boom"), ⟨[], []⟩, ⟨2025, 8, 12⟩, "g", "u", ⟨none, none, none⟩, .ok ()⟩

/-! ## Theorems -/

/-! ### Shared helper lemmas -/

theorem string_ext {s t : String} (h : s.data = t.data) : s = t := by
  cases s; cases t; exact congrArg String.mk h

theorem any_contains_iff (l m : List Nat) :
    (l.any fun d => m.contains d) = true ↔ ∃ d ∈ l, d ∈ m := by
  simp [List.any_eq_true]

/-- The bucket decision, stated through the membership tests the source
computes first. -/
theorem classifySale_eq (tw nw : List Nat) (s : Sale) :
    classifySale tw nw s =
      (if ((extractDayNumbers s.dates).any fun d => tw.contains d) &&
          !((extractDayNumbers s.dates).any fun d => nw.contains d) then .thisWeekend
       else if ((extractDayNumbers s.dates).any fun d => nw.contains d) &&
          !((extractDayNumbers s.dates).any fun d => tw.contains d) then .nextWeekend
       else .other) := rfl

/-! ### Claim C1 -/

/-- Claim C1: for every listing and fixed current date the bucket assignment
follows the exclusive-membership rule: a day number in the this-weekend
day-set and none in the next-weekend day-set gives `this_weekend`; a day
number in the next-weekend day-set and none in the this-weekend day-set
gives `next_weekend`; in every other case (both, or neither) the listing
goes to `other`.  The buckets of `organize_sales_by_weekend_fixed` are
exactly the listings classified accordingly, in input order. -/
theorem C1_bucket_exclusive_rule (now : Date) (s : Sale) :
    (((∃ d ∈ extractDayNumbers s.dates, d ∈ thisWeekendDays now) ∧
        (∀ d ∈ extractDayNumbers s.dates, d ∉ nextWeekendDays now)) →
      classifySale (thisWeekendDays now) (nextWeekendDays now) s = .thisWeekend) ∧
    (((∃ d ∈ extractDayNumbers s.dates, d ∈ nextWeekendDays now) ∧
        (∀ d ∈ extractDayNumbers s.dates, d ∉ thisWeekendDays now)) →
      classifySale (thisWeekendDays now) (nextWeekendDays now) s = .nextWeekend) ∧
    ((((∃ d ∈ extractDayNumbers s.dates, d ∈ thisWeekendDays now) ∧
        (∃ d ∈ extractDayNumbers s.dates, d ∈ nextWeekendDays now)) ∨
      ((∀ d ∈ extractDayNumbers s.dates, d ∉ thisWeekendDays now) ∧
        (∀ d ∈ extractDayNumbers s.dates, d ∉ nextWeekendDays now))) →
      classifySale (thisWeekendDays now) (nextWeekendDays now) s = .other) ∧
    (∀ sales : List Sale,
      organize_sales_by_weekend_fixed now sales =
        ⟨sales.filter (fun x =>
            classifySale (thisWeekendDays now) (nextWeekendDays now) x == .thisWeekend),
         sales.filter (fun x =>
            classifySale (thisWeekendDays now) (nextWeekendDays now) x == .nextWeekend),
         sales.filter (fun x =>
            classifySale (thisWeekendDays now) (nextWeekendDays now) x == .other)⟩) := by
  set tw := thisWeekendDays now with htw
  set nw := nextWeekendDays now with hnw
  have hthis := any_contains_iff (extractDayNumbers s.dates) tw
  have hnext := any_contains_iff (extractDayNumbers s.dates) nw
  refine ⟨?_, ?_, ?_, ?_⟩
  · rintro ⟨hin, hout⟩
    have h1 : ((extractDayNumbers s.dates).any fun d => tw.contains d) = true :=
      hthis.mpr hin
    have h2 : ((extractDayNumbers s.dates).any fun d => nw.contains d) = false := by
      cases h : (extractDayNumbers s.dates).any fun d => nw.contains d
      · rfl
      · obtain ⟨d, hd, hdm⟩ := hnext.mp h
        exact absurd hdm (hout d hd)
    rw [classifySale_eq, h1, h2]
    rfl
  · rintro ⟨hin, hout⟩
    have h1 : ((extractDayNumbers s.dates).any fun d => nw.contains d) = true :=
      hnext.mpr hin
    have h2 : ((extractDayNumbers s.dates).any fun d => tw.contains d) = false := by
      cases h : (extractDayNumbers s.dates).any fun d => tw.contains d
      · rfl
      · obtain ⟨d, hd, hdm⟩ := hthis.mp h
        exact absurd hdm (hout d hd)
    rw [classifySale_eq, h1, h2]
    rfl
  · rintro (⟨hin1, hin2⟩ | ⟨hout1, hout2⟩)
    · have h1 : ((extractDayNumbers s.dates).any fun d => tw.contains d) = true :=
        hthis.mpr hin1
      have h2 : ((extractDayNumbers s.dates).any fun d => nw.contains d) = true :=
        hnext.mpr hin2
      rw [classifySale_eq, h1, h2]
      rfl
    · have h1 : ((extractDayNumbers s.dates).any fun d => tw.contains d) = false := by
        cases h : (extractDayNumbers s.dates).any fun d => tw.contains d
        · rfl
        · obtain ⟨d, hd, hdm⟩ := hthis.mp h
          exact absurd hdm (hout1 d hd)
      have h2 : ((extractDayNumbers s.dates).any fun d => nw.contains d) = false := by
        cases h : (extractDayNumbers s.dates).any fun d => nw.contains d
        · rfl
        · obtain ⟨d, hd, hdm⟩ := hnext.mp h
          exact absurd hdm (hout2 d hd)
      rw [classifySale_eq, h1, h2]
      rfl
  · intro sales
    induction sales with
    | nil => rfl
    | cons x rest ih =>
      rw [organize_sales_by_weekend_fixed] at ih ⊢
      rw [organizeSalesList]
      cases h : classifySale tw nw x <;>
        simp [ih, List.filter_cons, h]

theorem C1_witness :
    ((∃ d ∈ extractDayNumbers saleW1.dates, d ∈ thisWeekendDays dateM) ∧
      (∀ d ∈ extractDayNumbers saleW1.dates, d ∉ nextWeekendDays dateM)) ∧
    classifySale (thisWeekendDays dateM) (nextWeekendDays dateM) saleW1 = .thisWeekend :=
  ⟨⟨by decide, by decide⟩,
   (C1_bucket_exclusive_rule dateM saleW1).1 ⟨by decide, by decide⟩⟩

/-! ### Claim C9 -/

/-- Claim C9: for a fixed current date the bucket decision is a function of
the `dates` string alone (determinism: two listings with the same string
get the same bucket), and listings whose extracted standalone day-number
sets agree elementwise get the same bucket regardless of any other text. -/
theorem C9_bucket_determinism (now : Date) (s1 s2 : Sale) :
    (s1.dates = s2.dates →
      classifySale (thisWeekendDays now) (nextWeekendDays now) s1 =
        classifySale (thisWeekendDays now) (nextWeekendDays now) s2) ∧
    ((∀ d, d ∈ extractDayNumbers s1.dates ↔ d ∈ extractDayNumbers s2.dates) →
      classifySale (thisWeekendDays now) (nextWeekendDays now) s1 =
        classifySale (thisWeekendDays now) (nextWeekendDays now) s2) := by
  constructor
  · intro h
    rw [classifySale_eq, classifySale_eq, h]
  · intro h
    have key : ∀ m : List Nat,
        ((extractDayNumbers s1.dates).any fun d => m.contains d) =
          ((extractDayNumbers s2.dates).any fun d => m.contains d) := by
      intro m
      rw [Bool.eq_iff_iff, any_contains_iff, any_contains_iff]
      constructor
      · rintro ⟨d, hd, hm⟩; exact ⟨d, (h d).mp hd, hm⟩
      · rintro ⟨d, hd, hm⟩; exact ⟨d, (h d).mpr hd, hm⟩
    rw [classifySale_eq, classifySale_eq, key, key]

theorem C9_witness :
    (∀ d, d ∈ extractDayNumbers saleW9a.dates ↔ d ∈ extractDayNumbers saleW9b.dates) ∧
    classifySale (thisWeekendDays dateM) (nextWeekendDays dateM) saleW9a =
      classifySale (thisWeekendDays dateM) (nextWeekendDays dateM) saleW9b := by
  have hsets : ∀ d, d ∈ extractDayNumbers saleW9a.dates ↔ d ∈ extractDayNumbers saleW9b.dates := by
    intro d
    show d ∈ [15, 16] ↔ d ∈ [16, 15]
    constructor <;> intro h <;> simp at h <;> rcases h with h | h <;> simp [h]
  exact ⟨hsets, (C9_bucket_determinism dateM saleW9a saleW9b).2 hsets⟩

/-! ### Claim C4 -/

/-- Claim C4: the days-until-Thursday offset is `3 - w` for current weekday
`w ≤ 3` and `(7 - w) + 3` for `w > 3`; on a Monday the offset is 3 and the
this-weekend day-set is the day-of-month of Monday+3 through Monday+6. -/
theorem C4_thursday_offset (now : Date) :
    (weekdayIdx now ≤ 3 → daysToThursday (weekdayIdx now) = 3 - weekdayIdx now) ∧
    (3 < weekdayIdx now → daysToThursday (weekdayIdx now) = 7 - weekdayIdx now + 3) ∧
    (weekdayIdx now = 0 →
      daysToThursday (weekdayIdx now) = 3 ∧
      thisWeekendDays now =
        [(addDays now 3).day, (addDays now 4).day,
         (addDays now 5).day, (addDays now 6).day]) := by
  refine ⟨?_, ?_, ?_⟩
  · intro h
    rw [daysToThursday, if_pos h]
  · intro h
    rw [daysToThursday, if_neg (by omega)]
  · intro h
    constructor
    · rw [h]; decide
    · rw [thisWeekendDays, thisThursday, h]
      rfl

theorem C4_witness :
    weekdayIdx dateM = 0 ∧
    daysToThursday (weekdayIdx dateM) = 3 ∧
    thisWeekendDays dateM =
      [(addDays dateM 3).day, (addDays dateM 4).day,
       (addDays dateM 5).day, (addDays dateM 6).day] :=
  ⟨by decide, (C4_thursday_offset dateM).2.2 (by decide)⟩

/-! ### Claim C7 -/

/-- Claim C7: if any of the three environment variables is unset or empty,
neither sender attempts an SMTP connection, none raises, and both return
normally (the credential guard yields `.ok .noCreds`). -/
theorem C7_notifier_noop (env : Env) (smtp : Except String Unit)
    (content errMsg : String)
    (h : truthy env.gmailUser = false ∨ truthy env.gmailAppPassword = false ∨
      truthy env.recipientEmail = false) :
    send_email env smtp content = .ok .noCreds ∧
    send_error_email env smtp errMsg = .ok .noCreds := by
  have hc : haveCreds env = false := by
    rw [haveCreds]
    rcases h with h | h | h <;> simp [h]
  rw [send_email.eq_def, send_error_email.eq_def, hc]
  exact ⟨rfl, rfl⟩

theorem C7_witness :
    truthy envW7.gmailUser = false ∧
    send_email envW7 (.ok ()) ("body") = .ok .noCreds ∧
    send_error_email envW7 (.ok ()) ("err") = .ok .noCreds := by
  refine ⟨by decide, ?_, ?_⟩
  · exact (C7_notifier_noop envW7 (.ok ()) ("body") ("err") (.inl (by decide))).1
  · exact (C7_notifier_noop envW7 (.ok ()) ("body") ("err") (.inl (by decide))).2

/-! ### Claim C5 -/

theorem enumFrom_formatEntry_getElem? :
    ∀ (l : List Sale) (n k : Nat),
      ((List.enumFrom n l).map (fun p => formatEntry p.1 p.2))[k]? =
        (l[k]?).map (fun s => formatEntry (n + k) s)
  | [], n, k => by simp
  | s :: rest, n, 0 => by simp [List.enumFrom]
  | s :: rest, n, k + 1 => by
    simp only [List.enumFrom, List.map_cons, List.getElem?_cons_succ]
    rw [enumFrom_formatEntry_getElem? rest (n + 1) k]
    have : n + 1 + k = n + (k + 1) := by omega
    rw [this]

theorem sectionEntries_getElem? (l : List Sale) (k : Nat) :
    (sectionEntries l)[k]? = (l[k]?).map (fun s => formatEntry (k + 1) s) := by
  rw [sectionEntries, enumFrom_formatEntry_getElem? l 1 k, Nat.add_comm 1 k]

theorem take_isEmpty {α : Type} (n : Nat) (l : List α) (hn : n ≠ 0) :
    (l.take n).isEmpty = l.isEmpty := by
  cases l with
  | nil => simp
  | cons a as =>
    cases n with
    | zero => exact absurd rfl hn
    | succ m => simp [List.take]

/-- Claim C5 (amended): within the report, the THIS WEEKEND and NEXT
WEEKEND sections list exactly the listings of their buckets, once each, in
bucket order, numbered consecutively from 1; the OTHER section does the
same but only for the first 15 listings of the `other` bucket, so the
report depends on `other` only through its first 15 entries. -/
theorem C5_formatter_sections (g u : String) (org : OrganizedSales) (k : Nat) :
    (sectionEntries org.this_weekend)[k]? =
      (org.this_weekend[k]?).map (fun s => formatEntry (k + 1) s) ∧
    (sectionEntries org.next_weekend)[k]? =
      (org.next_weekend[k]?).map (fun s => formatEntry (k + 1) s) ∧
    (sectionEntries (org.other.take 15))[k]? =
      ((org.other.take 15)[k]?).map (fun s => formatEntry (k + 1) s) ∧
    create_email_content_improved g u org =
      create_email_content_improved g u
        ⟨org.this_weekend, org.next_weekend, org.other.take 15⟩ := by
  refine ⟨sectionEntries_getElem? _ k, sectionEntries_getElem? _ k,
    sectionEntries_getElem? _ k, ?_⟩
  simp only [create_email_content_improved, List.take_take, min_self]
  rw [take_isEmpty 15 org.other (by omega)]

/-- Claim C5 counterexample: with sixteen listings in the `other` bucket,
the sixteenth appears at no position of the OTHER section's entry list
(the section is capped at 15 entries). -/
theorem C5_counterexample :
    ¬ (∀ s ∈ org5cex.other,
        ∃ k ∈ List.range (sectionEntries (org5cex.other.take 15)).length,
          (sectionEntries (org5cex.other.take 15))[k]? =
            some (formatEntry (k + 1) s)) := by
  decide

/-! ### Claim C6 -/

/-- Claim C6 (amended): when the structured pass yields fewer than 10
listings, the extractor appends up to 10 synthesized listings from the
page-text scan, each titled `"Estate Sale #<id>"` with the synthesized
literals `"Austin, TX (see website)"` and `"Check website for dates"`
(not the structured-pass defaults); with 10 or more structured listings
nothing is appended. -/
theorem C6_text_fallback (page : PageInput) :
    ((processLinks (page.saleLinks.take 30) []).length < 10 →
      extract_sales_info_improved page =
        (processLinks (page.saleLinks.take 30) [] ++
          (extract_from_html_text page).take 10).take 25) ∧
    (10 ≤ (processLinks (page.saleLinks.take 30) []).length →
      extract_sales_info_improved page =
        (processLinks (page.saleLinks.take 30) []).take 25) ∧
    (extract_from_html_text page).length ≤ 10 ∧
    (∀ s ∈ extract_from_html_text page, ∃ id,
      s.title = "Estate Sale #" ++ id ∧
      s.address = "Austin, TX (see website)" ∧
      s.dates = "Check website for dates") := by
  refine ⟨?_, ?_, ?_, ?_⟩
  · intro h
    simp only [extract_sales_info_improved]
    rw [if_pos h]
  · intro h
    simp only [extract_sales_info_improved]
    rw [if_neg (by omega)]
  · rw [extract_from_html_text, List.length_map, List.length_take]
    exact min_le_left _ _
  · intro s hs
    rw [extract_from_html_text] at hs
    obtain ⟨m, _, rfl⟩ := List.mem_map.mp hs
    exact ⟨m.2, rfl, rfl, rfl⟩

/-- Claim C6 counterexample: on a page whose structured pass is empty, the
synthesized listing carries `"Austin, TX (see website)"` and
`"Check website for dates"`, not the literal defaults named in the claim. -/
theorem C6_counterexample :
    ¬ (∀ s ∈ extract_sales_info_improved pageEx6,
        s.address = "Austin, TX (see website for full address)" ∧
        s.dates = "See website for dates") := by
  decide

theorem C6_witness :
    (processLinks (pageW6.saleLinks.take 30) []).length < 10 ∧
    extract_sales_info_improved pageW6 =
      (processLinks (pageW6.saleLinks.take 30) [] ++
        (extract_from_html_text pageW6).take 10).take 25 ∧
    saleW6 ∈ extract_from_html_text pageW6 ∧
    (∃ id, saleW6.title = "Estate Sale #" ++ id ∧
      saleW6.address = "Austin, TX (see website)" ∧
      saleW6.dates = "Check website for dates") :=
  ⟨by decide, (C6_text_fallback pageW6).1 (by decide), by decide,
   (C6_text_fallback pageW6).2.2.2 saleW6 (by decide)⟩

/-! ### Claim C2 -/

theorem strAppend_cancel_left {a b c : String} (h : a ++ b = a ++ c) : b = c := by
  apply string_ext
  have h2 := congrArg String.data h
  rw [String.data_append, String.data_append] at h2
  exact List.append_cancel_left h2

theorem processLinks_sales :
    ∀ (ls : List LinkInfo) (seen : List String) (s : Sale),
      s ∈ processLinks ls seen →
      ∃ l, l ∈ ls ∧ s = mkSale l ∧ seen.contains l.href = false
  | [], seen, s => by simp [processLinks]
  | l :: ls, seen, s => by
    intro hs
    rw [processLinks] at hs
    cases hc : seen.contains l.href with
    | true =>
      rw [hc] at hs
      simp only [if_true] at hs
      obtain ⟨l', hl', rfl, hseen⟩ := processLinks_sales ls seen s hs
      exact ⟨l', List.mem_cons_of_mem _ hl', rfl, hseen⟩
    | false =>
      rw [hc] at hs
      simp only [Bool.false_eq_true, if_false] at hs
      rcases List.mem_cons.mp hs with rfl | hs2
      · exact ⟨l, List.mem_cons_self _ _, rfl, hc⟩
      · obtain ⟨l', hl', rfl, hseen⟩ := processLinks_sales ls (l.href :: seen) s hs2
        refine ⟨l', List.mem_cons_of_mem _ hl', rfl, ?_⟩
        simp only [List.contains_cons, Bool.or_eq_false_iff] at hseen
        exact hseen.2

theorem processLinks_pairwise :
    ∀ (ls : List LinkInfo) (seen : List String),
      (processLinks ls seen).Pairwise (fun a b => a.link ≠ b.link)
  | [], seen => by simp [processLinks]
  | l :: ls, seen => by
    rw [processLinks]
    cases hc : seen.contains l.href with
    | true =>
      simp only [if_true]
      exact processLinks_pairwise ls seen
    | false =>
      simp only [Bool.false_eq_true, if_false]
      refine List.Pairwise.cons ?_ (processLinks_pairwise ls (l.href :: seen))
      intro s hs
      obtain ⟨l', hl', rfl, hseen⟩ := processLinks_sales ls (l.href :: seen) s hs
      have hne : l.href ≠ l'.href := by
        intro he
        rw [← he] at hseen
        simp [List.contains_cons] at hseen
      intro hlink
      rw [mkSale, mkSale] at hlink
      exact hne (strAppend_cancel_left hlink)

/-- Claim C2 (amended): the extractor returns at most 25 listings, and the
listings of the structured link pass have pairwise distinct links; but the
synthesized text-fallback listings appended when the structured pass finds
fewer than 10 are not deduplicated against the structured listings or each
other, so the full output can repeat a link. -/
theorem C2_cap_and_structured_dedup (page : PageInput) :
    (extract_sales_info_improved page).length ≤ 25 ∧
    (processLinks (page.saleLinks.take 30) []).Pairwise
      (fun a b => a.link ≠ b.link) := by
  constructor
  · simp only [extract_sales_info_improved]
    rw [List.length_take]
    exact min_le_left _ _
  · exact processLinks_pairwise _ _

/-- Claim C2 counterexample: a page with one structured link whose id pair
also occurs in the page text yields two distinct listings with the same
link. -/
theorem C2_counterexample :
    ¬ (∀ s1 ∈ extract_sales_info_improved pageEx2,
        ∀ s2 ∈ extract_sales_info_improved pageEx2,
          s1 ≠ s2 → s1.link ≠ s2.link) := by
  decide

/-! ### Claim C8 -/

theorem send_email_isOk (env : Env) (smtp : Except String Unit) (content : String) :
    ∃ r, send_email env smtp content = .ok r := by
  rw [send_email.eq_def]
  split
  · split
    · exact ⟨_, rfl⟩
    · exact ⟨_, rfl⟩
  · exact ⟨_, rfl⟩

theorem send_error_email_shape (env : Env) (smtp : Except String Unit) (e : String) :
    send_error_email env smtp e = .ok .noCreds ∨
    send_error_email env smtp e = .ok (.sent (errorContent e)) ∨
    ∃ se, send_error_email env smtp e = .ok (.sendFailed (errorContent e) se) := by
  rw [send_error_email.eq_def]
  split
  · split
    · exact .inr (.inl rfl)
    · exact .inr (.inr ⟨_, rfl⟩)
  · exact .inl rfl

/-- Claim C8: the top-level entry point catches every pipeline exception,
attempts an error-report email containing the stringified exception, and
never re-raises — also when the error email itself cannot be sent. -/
theorem C8_toplevel_never_raises (inp : RunInput) :
    (∃ out, scrape_estate_sales inp = .ok out) ∧
    (∀ e, inp.fetch = .error e →
      ∃ r, scrape_estate_sales inp = .ok (.errorHandled e r) ∧
        (r = .noCreds ∨ r = .sent (errorContent e) ∨
          ∃ se, r = .sendFailed (errorContent e) se)) := by
  cases hf : inp.fetch with
  | ok h =>
    obtain ⟨r, hr⟩ := send_email_isOk inp.env inp.smtp
      (create_email_content_improved inp.genStamp inp.updStamp
        (organize_sales_by_weekend_fixed inp.now (extract_sales_info_improved inp.page)))
    have hrun : runPipeline inp = .ok (.success
        (create_email_content_improved inp.genStamp inp.updStamp
          (organize_sales_by_weekend_fixed inp.now (extract_sales_info_improved inp.page))) r) := by
      rw [runPipeline, hf]
      simp only [hr]
    constructor
    · exact ⟨_, by rw [scrape_estate_sales, hrun]; rfl⟩
    · intro e he
      exact absurd he (by simp)
  | error e0 =>
    have hrun : runPipeline inp = .error e0 := by
      rw [runPipeline, hf]
    have hscrape : scrape_estate_sales inp =
        (send_error_email inp.env inp.smtp e0).map (fun r => .errorHandled e0 r) := by
      rw [scrape_estate_sales, hrun]
      rfl
    have hmain : ∃ r, scrape_estate_sales inp = .ok (.errorHandled e0 r) ∧
        (r = .noCreds ∨ r = .sent (errorContent e0) ∨
          ∃ se, r = .sendFailed (errorContent e0) se) := by
      rcases send_error_email_shape inp.env inp.smtp e0 with hs | hs | ⟨se, hs⟩
      · exact ⟨.noCreds, by rw [hscrape, hs]; rfl, .inl rfl⟩
      · exact ⟨.sent (errorContent e0), by rw [hscrape, hs]; rfl, .inr (.inl rfl)⟩
      · exact ⟨.sendFailed (errorContent e0) se, by rw [hscrape, hs]; rfl,
          .inr (.inr ⟨se, rfl⟩)⟩
    constructor
    · obtain ⟨r, hr, _⟩ := hmain
      exact ⟨_, hr⟩
    · intro e he
      have : e0 = e := by
        injection he
      subst this
      exact hmain

theorem C8_witness :
    inpW8.fetch = .error ("boom") ∧
    ∃ r, scrape_estate_sales inpW8 = .ok (.errorHandled ("boom") r) ∧
      (r = .noCreds ∨ r = .sent (errorContent ("boom")) ∨
        ∃ se, r = .sendFailed (errorContent ("boom")) se) :=
  ⟨rfl, (C8_toplevel_never_raises inpW8).2 ("boom") rfl⟩

/-! ### Claim C3 -/

theorem stripPat_length :
    ∀ (pat l rest : List Char), stripPat pat l = some rest →
      rest.length + pat.length = l.length
  | [], l, rest => by
    intro h
    rw [stripPat] at h
    injection h with h
    rw [h]
    simp
  | p :: ps, [], rest => by
    intro h
    exact absurd h (by rw [stripPat]; simp)
  | p :: ps, c :: cs, rest => by
    intro h
    rw [stripPat] at h
    by_cases hpc : p == c
    · rw [if_pos hpc] at h
      have hrec := stripPat_length ps cs rest h
      simp only [List.length_cons]
      omega
    · rw [if_neg hpc] at h
      exact absurd h (by simp)

theorem replAllFuel_length_le (p : Char) (ps rep : List Char)
    (hrep : rep.length ≤ ps.length + 1) :
    ∀ (fuel : Nat) (l : List Char),
      (replAllFuel p ps rep fuel l).length ≤ l.length
  | 0, l => le_refl _
  | fuel + 1, [] => by rw [replAllFuel]
  | fuel + 1, c :: cs => by
    rw [replAllFuel]
    cases hs : stripPat (p :: ps) (c :: cs) with
    | some rest =>
      have h1 := stripPat_length (p :: ps) (c :: cs) rest hs
      have h2 := replAllFuel_length_le p ps rep hrep fuel rest
      simp only [List.length_append, List.length_cons] at h1 ⊢
      omega
    | none =>
      have h2 := replAllFuel_length_le p ps rep hrep fuel cs
      simp only [List.length_cons]
      omega

theorem replAll_length_le (p : Char) (ps rep : List Char)
    (hrep : rep.length ≤ ps.length + 1) (l : List Char) :
    (replAll p ps rep l).length ≤ l.length :=
  replAllFuel_length_le p ps rep hrep l.length l

theorem dropWhile_length_le (p : Char → Bool) :
    ∀ l : List Char, (l.dropWhile p).length ≤ l.length
  | [] => le_refl _
  | c :: cs => by
    rw [List.dropWhile_cons]
    by_cases hp : p c
    · rw [if_pos hp]
      exact Nat.le_succ_of_le (dropWhile_length_le p cs)
    · rw [if_neg hp]

theorem pyStripChars_length_le (l : List Char) :
    (pyStripChars l).length ≤ l.length := by
  rw [pyStripChars, List.length_reverse]
  calc ((l.dropWhile isPySpace).reverse.dropWhile isPySpace).length
      ≤ (l.dropWhile isPySpace).reverse.length := dropWhile_length_le _ _
    _ = (l.dropWhile isPySpace).length := List.length_reverse _
    _ ≤ l.length := dropWhile_length_le _ _

theorem collapseWs_length_le : ∀ l : List Char, (collapseWs l).length ≤ l.length
  | [] => le_refl _
  | [c] => by by_cases h : isPySpace c <;> simp [collapseWs, h]
  | c :: d :: cs => by
    have ih := collapseWs_length_le (d :: cs)
    rw [collapseWs]
    by_cases h : (isPySpace c && isPySpace d) = true
    · rw [if_pos h]
      simp only [List.length_cons] at ih ⊢
      omega
    · rw [if_neg h]
      simp only [List.length_cons] at ih ⊢
      omega

/-- Normalization never lengthens a string: whitespace collapsing,
stripping, and the four entity replacements all shrink or preserve. -/
theorem clean_text_length_le (s : String) : (clean_text s).length ≤ s.length := by
  show (cleanChars s.data).length ≤ s.data.length
  rw [cleanChars]
  refine le_trans (replAll_length_le _ _ _ (by decide) _) ?_
  refine le_trans (replAll_length_le _ _ _ (by decide) _) ?_
  refine le_trans (replAll_length_le _ _ _ (by decide) _) ?_
  refine le_trans (replAll_length_le _ _ _ (by decide) _) ?_
  exact le_trans (pyStripChars_length_le _) (collapseWs_length_le _)

theorem strat2Title_length {ta : Option String} {t : String}
    (h : strat2Title ta = some t) : 6 ≤ t.length := by
  rw [strat2Title.eq_def] at h
  split at h
  · exact absurd h (by simp)
  · split at h
    · exact absurd h (by simp)
    · split at h
      · rename_i hgt
        injection h with h2
        subst h2
        simp only [decide_eq_true_eq] at hgt
        omega
      · exact absurd h (by simp)

/-- Every raw string selected by the title strategy chain has length at
least 6 (strategies bound lengths below by 5 or 10). -/
theorem titleRaw_length {c : Container} {ta : Option String} {t : String}
    (h : titleRaw c ta = some t) : 6 ≤ t.length := by
  rw [titleRaw] at h
  cases h1 : c.headings.find? headingOk with
  | some v =>
    rw [h1] at h
    simp only [Option.orElse] at h
    injection h with h2
    subst h2
    have hok := List.find?_some h1
    rw [headingOk] at hok
    simp only [Bool.and_eq_true, decide_eq_true_eq] at hok
    omega
  | none =>
    rw [h1] at h
    simp only [Option.orElse] at h
    cases h2 : strat2Title ta with
    | some v =>
      rw [h2] at h
      simp only [Option.orElse] at h
      injection h with h3
      subst h3
      exact strat2Title_length h2
    | none =>
      rw [h2] at h
      simp only [Option.orElse] at h
      cases h3 : c.strongTexts.find? strongOk with
      | some v =>
        rw [h3] at h
        simp only [Option.orElse] at h
        injection h with h4
        subst h4
        have hok := List.find?_some h3
        rw [strongOk] at hok
        simp only [Bool.and_eq_true, decide_eq_true_eq] at hok
        omega
      | none =>
        rw [h3] at h
        simp only [Option.orElse] at h
        have hok := List.find?_some h
        rw [lineOk] at hok
        simp only [Bool.and_eq_true, decide_eq_true_eq] at hok
        omega

/-- Claim C3 (amended): every produced title is the literal default
"Estate Sale", or a synthesized "Estate Sale #<id>" fallback title, or the
normalization of a raw extracted string of length at least 6.  The upper
bound 149 of the claim holds only for the heading strategy; the
title-attribute strategy has no upper bound. -/
theorem C3_title_shape (page : PageInput) (s : Sale)
    (hs : s ∈ extract_sales_info_improved page) :
    s.title = "Estate Sale" ∨ (∃ id, s.title = "Estate Sale #" ++ id) ∨
      (∃ raw, s.title = clean_text raw ∧ 6 ≤ raw.length) := by
  simp only [extract_sales_info_improved] at hs
  have hs2 := List.mem_of_mem_take hs
  have hmem : s ∈ processLinks (page.saleLinks.take 30) [] ∨
      s ∈ extract_from_html_text page := by
    split at hs2
    · rcases List.mem_append.mp hs2 with h | h
      · exact .inl h
      · exact .inr (List.mem_of_mem_take h)
    · exact .inl hs2
  rcases hmem with h | h
  · obtain ⟨l, _, rfl, _⟩ := processLinks_sales _ _ _ h
    simp only [mkSale]
    cases ht : titleRaw l.container l.titleAttr with
    | none =>
      left
      rw [extract_sale_title_improved, ht]
    | some t =>
      right; right
      exact ⟨t, by rw [extract_sale_title_improved, ht], titleRaw_length ht⟩
  · rw [extract_from_html_text] at h
    obtain ⟨m, _, rfl⟩ := List.mem_map.mp h
    right; left
    exact ⟨m.2, rfl⟩

/-- Claim C3 counterexample: a 200-character link `title` attribute is
returned whole (that strategy only bounds length from below), so the title
is neither the default nor the normalization of any string of length at
most 149. -/
theorem C3_counterexample :
    ¬ (∀ s ∈ extract_sales_info_improved pageEx3,
        s.title = "Estate Sale" ∨
          ∃ raw, s.title = clean_text raw ∧ 6 ≤ raw.length ∧ raw.length ≤ 149) := by
  intro hall
  have hmem : mkSale ⟨"/TX/Austin/1/2", some longAttr, emptyContainer⟩ ∈
      extract_sales_info_improved pageEx3 := by decide
  have hlen : (mkSale ⟨"/TX/Austin/1/2", some longAttr, emptyContainer⟩).title.length = 200 := by
    decide
  rcases hall _ hmem with h | ⟨raw, hcl, _, h149⟩
  · rw [h] at hlen
    exact absurd hlen (by decide)
  · rw [hcl] at hlen
    have hle := clean_text_length_le raw
    omega

theorem C3_witness :
    saleW3 ∈ extract_sales_info_improved pageW3 ∧
    (saleW3.title = "Estate Sale" ∨ (∃ id, saleW3.title = "Estate Sale #" ++ id) ∨
      (∃ raw, saleW3.title = clean_text raw ∧ 6 ≤ raw.length)) :=
  ⟨by decide, C3_title_shape pageW3 saleW3 (by decide)⟩

/-! ### Claim C10 -/

theorem isWordChar_of_isDigit {c : Char} (h : c.isDigit = true) :
    isWordChar c = true := by
  simp [isWordChar, Char.isAlphanum, h]

theorem not_isDigit_of_not_isWordChar {c : Char} (h : isWordChar c = false) :
    c.isDigit = false := by
  cases hd : c.isDigit
  · rfl
  · rw [isWordChar_of_isDigit hd] at h
    exact absurd h (by simp)

/-- Unfolding: the scan skips a position where no match can start. -/
theorem findNums_skip (prev : Option Char) (c : Char) (rest : List Char)
    (h : (boundary prev (some c) && c.isDigit) = false) :
    findNums prev (c :: rest) = findNums (some c) rest := by
  conv_lhs => rw [findNums.eq_def]
  simp [h]

/-- Unfolding: a final digit with boundaries on both sides matches. -/
theorem findNums_single_end (prev : Option Char) (c : Char)
    (h : (boundary prev (some c) && c.isDigit) = true) :
    findNums prev [c] = [[c]] := by
  have hb : boundary (some c) none = true := by
    simp only [Bool.and_eq_true] at h
    rw [boundary, isWordOpt, isWordOpt, isWordChar_of_isDigit h.2]
    rfl
  conv_lhs => rw [findNums.eq_def]
  simp [h, hb]

/-- Unfolding: a greedy two-digit match. -/
theorem findNums_two (prev : Option Char) (c d : Char) (rest2 : List Char)
    (h : (boundary prev (some c) && c.isDigit) = true)
    (h2 : (d.isDigit && boundary (some d) rest2.head?) = true) :
    findNums prev (c :: d :: rest2) = [c, d] :: findNums (some d) rest2 := by
  conv_lhs => rw [findNums.eq_def]
  simp [h, h2]

/-- Unfolding: a one-digit match when the two-digit attempt fails. -/
theorem findNums_one (prev : Option Char) (c d : Char) (rest2 : List Char)
    (h : (boundary prev (some c) && c.isDigit) = true)
    (h2 : (d.isDigit && boundary (some d) rest2.head?) = false)
    (h3 : boundary (some c) (some d) = true) :
    findNums prev (c :: d :: rest2) = [c] :: findNums (some c) (d :: rest2) := by
  conv_lhs => rw [findNums.eq_def]
  simp [h, h2, h3]

/-- Unfolding: no match at a digit whose follower kills both attempts. -/
theorem findNums_stuck (prev : Option Char) (c d : Char) (rest2 : List Char)
    (h : (boundary prev (some c) && c.isDigit) = true)
    (h2 : (d.isDigit && boundary (some d) rest2.head?) = false)
    (h3 : boundary (some c) (some d) = false) :
    findNums prev (c :: d :: rest2) = findNums (some c) (d :: rest2) := by
  conv_lhs => rw [findNums.eq_def]
  simp [h, h2, h3]

/-- Scanning through a prefix whose last character is a non-word character
never consumes into the suffix: the results split into the prefix's
matches followed by the suffix's scan started after that character. -/
theorem findNums_append_aux :
    ∀ (n : Nat) (s1 : List Char), s1.length ≤ n →
      ∀ (prev : Option Char) (rest : List Char),
        (∀ c, s1.getLast? = some c → isWordChar c = false) →
        ∃ pre, findNums prev (s1 ++ rest) =
          pre ++ findNums (junctionPrev s1 prev) rest := by
  intro n
  induction n with
  | zero =>
    intro s1 hlen prev rest _
    have h0 : s1 = [] := List.length_eq_zero.mp (Nat.le_zero.mp hlen)
    subst h0
    exact ⟨[], by simp [junctionPrev]⟩
  | succ n ih =>
    intro s1 hlen prev rest hlast
    match s1 with
    | [] => exact ⟨[], by simp [junctionPrev]⟩
    | [x] =>
      have hx : isWordChar x = false := hlast x (by simp)
      have hxd : x.isDigit = false := not_isDigit_of_not_isWordChar hx
      refine ⟨[], ?_⟩
      rw [List.cons_append, List.nil_append, List.nil_append]
      rw [findNums_skip prev x rest (by rw [hxd]; simp)]
      simp [junctionPrev]
    | x :: y :: s1' =>
      have hlast' : ∀ c, (y :: s1').getLast? = some c → isWordChar c = false := by
        intro c hc
        exact hlast c (by rw [List.getLast?_cons_cons]; exact hc)
      have hlen' : (y :: s1').length ≤ n := by
        simp only [List.length_cons] at hlen ⊢
        omega
      have hjunc : junctionPrev (x :: y :: s1') prev = junctionPrev (y :: s1') (some x) := by
        rw [junctionPrev, junctionPrev, List.getLast?_cons_cons]
        cases hgl : (y :: s1').getLast? with
        | none => exact absurd hgl (by simp)
        | some c => rfl
      rw [List.cons_append]
      by_cases hcond : (boundary prev (some x) && x.isDigit) = true
      · rw [List.cons_append]
        by_cases hb1 : (y.isDigit && boundary (some y) (s1' ++ rest).head?) = true
        · -- greedy two-digit match at the junction of x and y
          have hyd : y.isDigit = true := by
            simp only [Bool.and_eq_true] at hb1
            exact hb1.1
          -- s1' cannot be empty: the last character of s1 would be the digit y
          match s1' with
          | [] =>
            exfalso
            have := hlast y (by simp)
            rw [isWordChar_of_isDigit hyd] at this
            exact absurd this (by simp)
          | z :: s1'' =>
            rw [findNums_two prev x y (z :: s1'' ++ rest) hcond hb1]
            have hlast'' : ∀ c, (z :: s1'').getLast? = some c → isWordChar c = false := by
              intro c hc
              exact hlast' c (by rw [List.getLast?_cons_cons]; exact hc)
            have hlen'' : (z :: s1'').length ≤ n := by
              simp only [List.length_cons] at hlen ⊢
              omega
            obtain ⟨pre', hpre'⟩ := ih (z :: s1'') hlen'' (some y) rest hlast''
            refine ⟨[x, y] :: pre', ?_⟩
            rw [hpre', hjunc]
            have hjunc2 : junctionPrev (y :: z :: s1'') (some x) =
                junctionPrev (z :: s1'') (some y) := by
              rw [junctionPrev, junctionPrev, List.getLast?_cons_cons]
              cases hgl : (z :: s1'').getLast? with
              | none => exact absurd hgl (by simp)
              | some c => rfl
            rw [hjunc2]
            rfl
        · by_cases hb2 : boundary (some x) (some y) = true
          · rw [findNums_one prev x y (s1' ++ rest) hcond (by simpa using hb1) hb2]
            obtain ⟨pre', hpre'⟩ := ih (y :: s1') hlen' (some x) rest hlast'
            refine ⟨[x] :: pre', ?_⟩
            rw [List.cons_append] at hpre'
            rw [hpre', hjunc]
            rfl
          · rw [findNums_stuck prev x y (s1' ++ rest) hcond (by simpa using hb1)
              (by simpa using hb2)]
            obtain ⟨pre', hpre'⟩ := ih (y :: s1') hlen' (some x) rest hlast'
            rw [List.cons_append] at hpre'
            exact ⟨pre', by rw [hpre', hjunc]⟩
      · rw [findNums_skip prev x ((y :: s1') ++ rest) (by simpa using hcond)]
        obtain ⟨pre', hpre'⟩ := ih (y :: s1') hlen' (some x) rest hlast'
        exact ⟨pre', by rw [hpre', hjunc]⟩

/-- Scanning a two-or-fewer-digit number wedged between a non-word scan
state and a slash, then a second such number bounded on the right,
produces exactly the two numbers (then continues). -/
theorem findNums_slash (prev : Option Char) (mC dC s2 : List Char)
    (hprev : isWordOpt prev = false)
    (hm : mC.all Char.isDigit = true) (hd : dC.all Char.isDigit = true)
    (hm1 : 1 ≤ mC.length) (hm2 : mC.length ≤ 2)
    (hd1 : 1 ≤ dC.length) (hd2 : dC.length ≤ 2)
    (hs2 : ∀ g, s2.head? = some g → isWordChar g = false) :
    ∃ t, findNums prev (mC ++ '/' :: (dC ++ s2)) = mC :: dC :: t := by
  have hslashw : isWordChar '/' = false := by decide
  have hslashd : ('/').isDigit = false := by decide
  -- after the first number and the slash, scan dC with prev = '/'
  have hdpart : ∃ t, findNums (some '/') (dC ++ s2) = dC :: t := by
    match dC with
    | [] => exact absurd hd1 (by simp)
    | [e] =>
      have he : e.isDigit = true := by simpa using hd
      have hbe : (boundary (some '/') (some e) && e.isDigit) = true := by
        rw [boundary, isWordOpt, isWordOpt, hslashw, isWordChar_of_isDigit he, he]
        rfl
      match s2 with
      | [] =>
        refine ⟨[], ?_⟩
        rw [List.cons_append, List.nil_append]
        exact findNums_single_end (some '/') e hbe
      | g :: s2' =>
        have hg : isWordChar g = false := hs2 g (by simp)
        have hgd : g.isDigit = false := not_isDigit_of_not_isWordChar hg
        refine ⟨findNums (some e) (g :: s2'), ?_⟩
        rw [List.cons_append, List.nil_append]
        exact findNums_one (some '/') e g s2' hbe (by rw [hgd]; simp)
          (by rw [boundary, isWordOpt, isWordOpt, isWordChar_of_isDigit he, hg]; rfl)
    | [e, f] =>
      have he : e.isDigit = true := by simpa using (by simpa using hd : e.isDigit ∧ f.isDigit = true).1
      have hf : f.isDigit = true := by
        have hp : e.isDigit = true ∧ f.isDigit = true := by simpa using hd
        exact hp.2
      have hbe : (boundary (some '/') (some e) && e.isDigit) = true := by
        rw [boundary, isWordOpt, isWordOpt, hslashw, isWordChar_of_isDigit he, he]
        rfl
      have hbf : (f.isDigit && boundary (some f) s2.head?) = true := by
        rw [hf, Bool.true_and, boundary, isWordOpt, isWordChar_of_isDigit hf]
        match s2 with
        | [] => rfl
        | g :: s2' =>
          have hg : isWordChar g = false := hs2 g (by simp)
          rw [List.head?_cons, isWordOpt, hg]
          rfl
      refine ⟨findNums (some f) s2, ?_⟩
      rw [List.cons_append, List.cons_append, List.nil_append]
      exact findNums_two (some '/') e f s2 hbe hbf
    | e :: f :: g :: dC' => simp at hd2
  -- prepend the first number
  obtain ⟨t, ht⟩ := hdpart
  match mC with
  | [] => exact absurd hm1 (by simp)
  | [a] =>
    have ha : a.isDigit = true := by simpa using hm
    have hba : (boundary prev (some a) && a.isDigit) = true := by
      rw [boundary, hprev, isWordOpt, isWordChar_of_isDigit ha, ha]
      rfl
    refine ⟨t, ?_⟩
    rw [List.cons_append, List.nil_append]
    rw [findNums_one prev a '/' (dC ++ s2) hba (by rw [hslashd]; simp)
      (by rw [boundary, isWordOpt, isWordOpt, isWordChar_of_isDigit ha, hslashw]; rfl)]
    rw [findNums_skip (some a) '/' (dC ++ s2)
      (by rw [hslashd]; simp)]
    rw [ht]
  | [a, b] =>
    have ha : a.isDigit = true := by
      have hp : a.isDigit = true ∧ b.isDigit = true := by simpa using hm
      exact hp.1
    have hb : b.isDigit = true := by
      have hp : a.isDigit = true ∧ b.isDigit = true := by simpa using hm
      exact hp.2
    have hba : (boundary prev (some a) && a.isDigit) = true := by
      rw [boundary, hprev, isWordOpt, isWordChar_of_isDigit ha, ha]
      rfl
    have hbb : (b.isDigit && boundary (some b) ('/' :: (dC ++ s2)).head?) = true := by
      rw [hb, Bool.true_and, boundary, isWordOpt, isWordChar_of_isDigit hb,
        List.head?_cons, isWordOpt, hslashw]
      rfl
    refine ⟨t, ?_⟩
    rw [List.cons_append, List.cons_append, List.nil_append]
    rw [findNums_two prev a b ('/' :: (dC ++ s2)) hba hbb]
    rw [findNums_skip (some b) '/' (dC ++ s2) (by rw [hslashd]; simp)]
    rw [ht]
  | a :: b :: c' :: mC' => simp at hm2

/-- Claim C10: when the lowercased `dates` string contains a slash-form
numeric date `m/d` as a standalone token (non-word context on both sides),
the day-number extraction includes the month numeral `m` as well as `d`
whenever both are in `[1, 31]` — e.g. `"8/14"` contributes both 8 and 14,
so the month numeral alone can decide the bucket. -/
theorem C10_slash_month_extracted (dates : String) (s1 mC dC s2 : List Char)
    (hdec : (strLower dates).data = s1 ++ (mC ++ '/' :: (dC ++ s2)))
    (hlast : ∀ c, s1.getLast? = some c → isWordChar c = false)
    (hm : mC.all Char.isDigit = true) (hd : dC.all Char.isDigit = true)
    (hm1 : 1 ≤ mC.length) (hm2 : mC.length ≤ 2)
    (hd1 : 1 ≤ dC.length) (hd2 : dC.length ≤ 2)
    (hs2 : ∀ g, s2.head? = some g → isWordChar g = false)
    (hmlo : 1 ≤ numVal mC) (hmhi : numVal mC ≤ 31)
    (hdlo : 1 ≤ numVal dC) (hdhi : numVal dC ≤ 31) :
    numVal mC ∈ extractDayNumbers dates ∧ numVal dC ∈ extractDayNumbers dates := by
  have hjw : isWordOpt (junctionPrev s1 none) = false := by
    rw [junctionPrev]
    cases hgl : s1.getLast? with
    | none => rfl
    | some c => exact hlast c hgl
  obtain ⟨pre, hpre⟩ :=
    findNums_append_aux s1.length s1 (le_refl _) none (mC ++ '/' :: (dC ++ s2)) hlast
  obtain ⟨t, ht⟩ := findNums_slash (junctionPrev s1 none) mC dC s2 hjw hm hd hm1 hm2 hd1 hd2 hs2
  have hall : findNums none (strLower dates).data = pre ++ (mC :: dC :: t) := by
    rw [hdec, hpre, ht]
  have hmemM : numVal mC ∈ (findNums none (strLower dates).data).map numVal := by
    rw [hall]
    simp
  have hmemD : numVal dC ∈ (findNums none (strLower dates).data).map numVal := by
    rw [hall]
    simp
  constructor
  · rw [extractDayNumbers]
    refine List.mem_filter.mpr ⟨hmemM, ?_⟩
    simp [hmlo, hmhi]
  · rw [extractDayNumbers]
    refine List.mem_filter.mpr ⟨hmemD, ?_⟩
    simp [hdlo, hdhi]

theorem C10_witness :
    (8 : Nat) ∈ extractDayNumbers ("sale 8/14") ∧
    (14 : Nat) ∈ extractDayNumbers ("sale 8/14") := by
  have h := C10_slash_month_extracted ("sale 8/14")
    ("sale ".data) (['8']) (['1', '4']) ([])
    (by decide)
    (by intro c hc; rw [show ("sale ".data.getLast?) = some ' ' from by decide] at hc
        injection hc with h2; rw [← h2]; decide)
    (by decide) (by decide) (by decide) (by decide) (by decide) (by decide)
    (by intro g hg; exact absurd hg (by simp))
    (by decide) (by decide) (by decide) (by decide)
  exact h

end EstateSales
